import Mathlib

/-
Shallow embedding of the rework-breakpoints plugin.

The current variant (`index.js`, the unnamed source file) is embedded in
namespace `RB`; the legacy variant (`lib/breakpoints.js`) in `RB.Legacy`.
JavaScript strings are Lean `String`s; numbers are exact decimals `JNum`
(every value the plugin handles is a finite decimal, on which JavaScript
arithmetic and printing agree with exact decimal arithmetic; `parseFloat`
results that would be NaN can only arise from degenerate numerals such as
"..1" and are mapped to a `none`/default — no claim exercises them), with
`JNum.toQ` giving their rational value for the interval claims.  The
mutable module state is threaded explicitly and thrown exceptions become
`Except String`.
-/

namespace RB

/-- Characters matched by the JavaScript regex class \s (the ASCII part,
which is all the plugin's inputs use). -/
def isWs (c : Char) : Bool :=
  c = ' ' || c = '\t' || c = '\n' || c = '\r' || c = '\x0b' || c = '\x0c'

/-- Auxiliary state machine for JavaScript `String.prototype.split(/\s+/)`:
`acc` holds the current token (reversed), `inWs` records whether we are
inside a separator run. -/
def splitWsAux : List Char → List Char → Bool → List String
  | [], _, true => [""]
  | [], acc, false => [String.mk acc.reverse]
  | c :: cs, acc, inWs =>
    if isWs c then
      if inWs then splitWsAux cs [] true
      else String.mk acc.reverse :: splitWsAux cs [] true
    else splitWsAux cs (c :: acc) false

/-- JavaScript `value.split(/\s+/)` (keeps the empty leading/trailing pieces
the regex split produces around boundary whitespace). -/
def splitWs (s : String) : List String :=
  splitWsAux s.toList [] false

/-- Lower-casing, prefix test and character drop on strings, written over
the character list so the kernel can evaluate them (the core `String`
versions loop over byte positions, which the kernel cannot unfold). -/
def toLowerStr (s : String) : String := String.mk (s.toList.map Char.toLower)

/-- Prefix test (see `toLowerStr`). -/
def startsWithStr (s pat : String) : Bool := pat.toList.isPrefixOf s.toList

/-- Drop the first `n` characters (see `toLowerStr`); the inputs are
ASCII, so characters and code units agree. -/
def dropStr (s : String) (n : ℕ) : String := String.mk (s.toList.drop n)

/-- Substring containment at any position. -/
def containsAux (pat : List Char) : List Char → Bool
  | [] => pat.isEmpty
  | c :: cs => pat.isPrefixOf (c :: cs) || containsAux pat cs

/-- Substring containment test, used to model an unanchored regex match. -/
def containsStr (s pat : String) : Bool :=
  containsAux pat.toList s.toList

/-- Source `isType`: `str.match(/(max|min)/)` — an unanchored containment
test for either word. -/
def isType (str : String) : Bool :=
  containsStr str "max" || containsStr str "min"

/-- Unit alternative `(px|em|rem)` matched at the head of the character
list; returns the matched unit. -/
def unitAt : List Char → Option String
  | 'p' :: 'x' :: _ => some "px"
  | 'e' :: 'm' :: _ => some "em"
  | 'r' :: 'e' :: 'm' :: _ => some "rem"
  | _ => none

/-- Source `isPoint`: `str.match(/[0-9]+(px|em|rem)/)` — somewhere in the
string a digit is immediately followed by a unit (taking the last digit of
the run). -/
def isPoint (str : String) : Bool :=
  let cs := str.toList
  (List.range cs.length).any fun j =>
    (cs.getD j ' ').isDigit && (unitAt (cs.drop (j + 1))).isSome

/-- Character class `[0-9.]` of the typed-syntax numeral. -/
def digitDot (c : Char) : Bool := c.isDigit || c = '.'

/-- Whole-string unit match `(px|em|rem)$`. -/
def unitEnd (cs : List Char) : Bool :=
  cs = "px".toList || cs = "em".toList || cs = "rem".toList

/-- Source `hasSpecialSyntax`: the anchored regex
`/^(min|max)\s+[0-9\.]+(px|em|rem)$/` (the gate deciding typed versus
custom registration; note it requires the type token first). -/
def hasSpecialSyntax (value : String) : Bool :=
  let cs := value.toList
  if cs.take 3 = "min".toList || cs.take 3 = "max".toList then
    let r1 := cs.drop 3
    let r2 := r1.dropWhile isWs
    if r1.length = r2.length then false
    else
      let num := r2.takeWhile digitDot
      if num.isEmpty then false
      else unitEnd (r2.drop num.length)
  else false

/-- Source `getTypeAndPoint`: split on whitespace, demand two tokens, and
accept the (type, point) pair in either token order.  The callback's throw
on error becomes `Except.error`; when the token count is wrong the first
`cb(err)` throws before the later branches run. -/
def getTypeAndPoint (value : String) : Except String (String × String) :=
  match splitWs value with
  | [a, b] =>
    if isType a && isPoint b then .ok (a, b)
    else if isType b && isPoint a then .ok (b, a)
    else .error "missing type or point, i.e. \"max\" or \"min\" and e.g. \"1000px\" respectively"
  | _ => .error "not in the format: <type> <breakpoint in px>, e.g. \"min 1000px\" or \"max 340px\""

/-- Source `isBreakpointsOption`: regex test `^(var-)?breakpoints-` . -/
def isBreakpointsOption (property : String) : Bool :=
  startsWithStr property "breakpoints-" || startsWithStr property "var-breakpoints-"

/-- Source `isBreakpoint`: regex test `^(var-)?breakpoint-` . -/
def isBreakpoint (property : String) : Bool :=
  startsWithStr property "breakpoint-" || startsWithStr property "var-breakpoint-"

/-- Source `getOptionName`: strip the leading `(var-)?breakpoints-`. -/
def getOptionName (property : String) : String :=
  if startsWithStr property "var-breakpoints-" then dropStr property 16
  else if startsWithStr property "breakpoints-" then dropStr property 12
  else property

/-- Source `getBreakpointName`: strip the leading `(var-)?breakpoint-`. -/
def getBreakpointName (property : String) : String :=
  if startsWithStr property "var-breakpoint-" then dropStr property 15
  else if startsWithStr property "breakpoint-" then dropStr property 11
  else property

/-- Digit run to a natural number. -/
def digitsToNat (cs : List Char) : ℕ :=
  cs.foldl (fun acc c => acc * 10 + (c.toNat - '0'.toNat)) 0

/-- Exact decimal number `num / 10 ^ exp`.  Every number the plugin
handles is a finite decimal (a `parseFloat` of a decimal numeral plus
integer multiples of 1 or 0.0001), and on such values JavaScript's double
arithmetic and shortest-roundtrip printing agree with exact decimal
arithmetic; this representation also avoids rational normalization, so the
kernel can evaluate it. -/
structure JNum where
  num : ℤ
  exp : ℕ
deriving Repr, DecidableEq

instance : Inhabited JNum := ⟨⟨0, 0⟩⟩

/-- The rational value of a decimal. -/
def JNum.toQ (x : JNum) : ℚ := (x.num : ℚ) / (10 : ℚ) ^ x.exp

/-- Exact decimal addition (no normalization). -/
def JNum.add (a b : JNum) : JNum :=
  ⟨a.num * 10 ^ b.exp + b.num * 10 ^ a.exp, a.exp + b.exp⟩

/-- Scaling by an integer. -/
def JNum.smul (m : ℤ) (a : JNum) : JNum := ⟨m * a.num, a.exp⟩

/-- Decimal comparison by cross-multiplication. -/
def JNum.ble (a b : JNum) : Bool := a.num * 10 ^ b.exp ≤ b.num * 10 ^ a.exp

/-- JavaScript `parseFloat` restricted to the `[0-9.]+` numerals the code
feeds it: integer part, optional dot, fractional part (parsing stops at a
second dot); `none` is NaN (no leading digit and no fractional digit). -/
def parseFloatNum (s : String) : Option JNum :=
  let cs := s.toList
  let ip := cs.takeWhile Char.isDigit
  let r1 := cs.drop ip.length
  match r1 with
  | '.' :: r2 =>
    let fp := r2.takeWhile Char.isDigit
    if ip.isEmpty && fp.isEmpty then none
    else some ⟨(digitsToNat (ip ++ fp) : ℤ), fp.length⟩
  | _ => if ip.isEmpty then none else some ⟨(digitsToNat ip : ℤ), 0⟩

/-- Leftmost match of `/([0-9\.]+)(px|em|rem)/` as in the `exec` call of
`set`: the maximal digit-dot run followed immediately by a unit. -/
def execNumUnit : List Char → Option (String × String)
  | [] => none
  | c :: cs =>
    let run := (c :: cs).takeWhile digitDot
    match run, unitAt ((c :: cs).drop run.length) with
    | _ :: _, some u => some (String.mk run, u)
    | _, _ => execNumUnit cs

/-- Breakpoint record of the current variant.  `set` stores
`{name, type, value, unit, factor}` for typed breakpoints; `setCustom`
stores the raw text (kept here in `custom`; the source reuses the `value`
slot for it). -/
structure BP where
  name : String
  type : String
  value : JNum := ⟨0, 0⟩
  unit : String := ""
  factor : JNum := ⟨0, 0⟩
  custom : String := ""
deriving Repr, DecidableEq

instance : Inhabited BP := ⟨{ name := "", type := "" }⟩

/-- Source `hasBreakpointWithName`. -/
def hasBreakpointWithName (bps : List BP) (name : String) : Bool :=
  bps.any fun bp => bp.name == name

/-- JavaScript property lookup `bp[key]` on the breakpoint record,
restricted to string-valued results (`===` between a string and a number
or `undefined` is false anyway).  The record has keys `name`, `type`,
`value`, `unit`, `factor` for typed breakpoints and `name`, `type`,
`value` (the raw text) for custom ones — in particular there is no key
named `min`, `max` or `custom`. -/
def fieldStr (bp : BP) : String → Option String
  | "name" => some bp.name
  | "type" => some bp.type
  | "unit" => some bp.unit
  | "value" => if bp.type == "custom" then some bp.custom else none
  | _ => none

/-- Source `hasBreakpointWithTypeAndPoint` of the current variant: the
comparison is `breakpoint[breakpoint.type] === point`, and since no
breakpoint record of this variant has a field named after its own type the
lookup is always `undefined` and the comparison always false. -/
def hasBreakpointWithTypeAndPoint (bps : List BP) (type point : String) : Bool :=
  bps.any fun bp => bp.type == type && (((fieldStr bp bp.type).map (· == point)).getD false)

/-- Source `set`: lower-case name and type, uniqueness checks, then parse
the numeral and unit out of the point and push the typed record.
`parseFloat` cannot return NaN here for gate-validated points; the
degenerate all-dots case is mapped to 0 (see `parseFloatQ`). -/
def set (bps : List BP) (name type point : String) : Except String (List BP) :=
  let name := toLowerStr name
  let type := toLowerStr type
  if hasBreakpointWithName bps name then
    .error ("Breakpoint with name: " ++ name ++ " is already defined!")
  else if hasBreakpointWithTypeAndPoint bps type point then
    .error ("A breakpoint at: " ++ type ++ " " ++ point ++ " is already defined!")
  else
    match execNumUnit point.toList with
    | some (numStr, unit) =>
      .ok (bps ++ [{ name := name, type := type,
                     value := (parseFloatNum numStr).getD ⟨0, 0⟩, unit := unit,
                     factor := if unit == "px" then ⟨1, 0⟩ else ⟨1, 4⟩ }])
    | none => .ok bps

/-- Source `setCustom`: lower-case the name, check name uniqueness, push a
`custom` record carrying the raw value text. -/
def setCustom (bps : List BP) (name value : String) : Except String (List BP) :=
  let name := toLowerStr name
  if hasBreakpointWithName bps name then
    .error ("Breakpoint with name: " ++ name ++ " is already defined!")
  else
    .ok (bps ++ [{ name := name, type := "custom", custom := value }])

/-- Source `breakpoint`: typed-syntax gate, then either the typed parse
(+ registration) with its error-wrapping, or custom registration. -/
def breakpoint (bps : List BP) (property value : String) : Except String (List BP) :=
  let name := getBreakpointName property
  if hasSpecialSyntax value then
    match getTypeAndPoint value with
    | .error msg => .error ("Error in breakpoint \"" ++ name ++ "\": " ++ msg)
    | .ok (type, point) => set bps name type point
  else
    setCustom bps name value

/-- Assignment `options[name] = v` on a JavaScript object, keeping the key
insertion order. -/
def optSet (opts : List (String × Bool)) (k : String) (v : Bool) : List (String × Bool) :=
  if (opts.lookup k).isSome then opts.map (fun p => if p.1 == k then (k, v) else p)
  else opts ++ [(k, v)]

/-- Source `option`: the value is truthy iff its lower-casing is one of
`1`, `true`, `yes`. -/
def option (opts : List (String × Bool)) (property value : String) : List (String × Bool) :=
  optSet opts (getOptionName property) (["1", "true", "yes"].contains (toLowerStr value))

/-- Shared module state of one run: collected breakpoints and options.
(The collected media rules need no separate list in this functional model:
rewriting maps over every rule of the tree that carries a truthy media
selector, which is exactly the collected set.) -/
structure St where
  breakpoints : List BP := []
  options : List (String × Bool) := []
deriving Repr, DecidableEq

/-- A CSS declaration as handed over by the parser. -/
structure Decl where
  property : String
  value : String
deriving Repr, DecidableEq

/-- Source `visit`: walk the declaration list, registering and removing
option and breakpoint declarations (the `splice(i--, 1)` loop processes
every entry in order), keeping the rest. -/
def visit (st : St) : List Decl → Except String (St × List Decl)
  | [] => .ok (st, [])
  | d :: ds =>
    if isBreakpointsOption d.property then
      visit { st with options := option st.options d.property d.value } ds
    else if isBreakpoint d.property then
      match breakpoint st.breakpoints d.property d.value with
      | .error e => .error e
      | .ok bps => visit { st with breakpoints := bps } ds
    else
      match visit st ds with
      | .error e => .error e
      | .ok (st', ds') => .ok (st', d :: ds')

/-- Drop trailing decimal zeros of `num / 10 ^ exp` (structural on the
exponent). -/
def stripZeros : ℤ → ℕ → ℤ × ℕ
  | n, 0 => (n, 0)
  | n, e + 1 => if n % 10 = 0 then stripZeros (n / 10) e else (n, e + 1)

/-- Digits of a natural number with a decimal point before the last `e`
digits (left-padded with zeros so an integer digit remains). -/
def decDigits (n : ℕ) (e : ℕ) : String :=
  let s := toString n
  let cs := s.toList
  let cs := if cs.length < e + 1 then List.replicate (e + 1 - cs.length) '0' ++ cs else cs
  String.mk (cs.take (cs.length - e)) ++ "." ++ String.mk (cs.drop (cs.length - e))

/-- JavaScript number-to-string on the finite decimals the resolver
prints: no trailing zeros, a digit before the point, integers without a
point. -/
def decStr (x : JNum) : String :=
  match stripZeros x.num x.exp with
  | (n, 0) => toString n
  | (n, e + 1) =>
    if n < 0 then "-" ++ decDigits (-n).toNat (e + 1) else decDigits n.toNat (e + 1)

/-- Numeric content of `getValue`: `breakpoint.value + factorMultiplier *
breakpoint.factor` (the tie-break delta is the breakpoint's `factor`). -/
def getValueNum (bp : BP) (factorMultiplier : ℤ) : JNum :=
  bp.value.add (JNum.smul factorMultiplier bp.factor)

/-- Source `getValue` (the `factorMultiplier` default of 0 is passed
explicitly at call sites below). -/
def getValue (bp : BP) (factorMultiplier : ℤ) : String :=
  decStr (getValueNum bp factorMultiplier) ++ bp.unit

/-- Stable insertion used to model the stable `Array.prototype.sort` with
comparator `a.value - b.value`. -/
def insByValue (a : BP) : List BP → List BP
  | [] => [a]
  | b :: l => if a.value.ble b.value then a :: b :: l else b :: insByValue a l

/-- Stable sort by ascending `value` (ties keep declaration order; the
claims under study exclude duplicate points anyway). -/
def sortByValue (l : List BP) : List BP := l.foldr insByValue []

/-- Assignments the `apply` max loop performs at index `i` of the sorted
max list, in their source order (the plain name, then for `i > 0` the
synthesized `-and-down` and `-and-up` names). -/
def maxEntry (query : String) (ms : List BP) (i : ℕ) : List (String × String) :=
  let bp := ms.getD i default
  let upper := " and (max" ++ query ++ ": " ++ getValue bp 0 ++ ")"
  if i = 0 then [(bp.name, "only screen" ++ upper)]
  else
    let prev := ms.getD (i - 1) default
    let lower := " and (min" ++ query ++ ": " ++ getValue prev 1 ++ ")"
    [(bp.name, "only screen" ++ lower ++ upper),
     (bp.name ++ "-and-down", "only screen and (max" ++ query ++ ": " ++ getValue bp 0 ++ ")"),
     (bp.name ++ "-and-up", "only screen and (min" ++ query ++ ": " ++ getValue prev 1 ++ ")")]

/-- The max loop of `apply` (ascending indices). -/
def maxAssigns (query : String) (ms : List BP) : List (String × String) :=
  ((List.range ms.length).map (maxEntry query ms)).flatten

/-- Assignments the `apply` min loop performs at index `j` of the sorted
min list (the plain name, then for `j` below the last index the
synthesized `-and-up` and `-and-down` names). -/
def minEntry (query : String) (ns : List BP) (j : ℕ) : List (String × String) :=
  let bp := ns.getD j default
  let lower := " and (min" ++ query ++ ": " ++ getValue bp 0 ++ ")"
  if j + 1 < ns.length then
    let next := ns.getD (j + 1) default
    let upper := " and (max" ++ query ++ ": " ++ getValue next (-1) ++ ")"
    [(bp.name, "only screen" ++ lower ++ upper),
     (bp.name ++ "-and-up", "only screen and (min" ++ query ++ ": " ++ getValue bp 0 ++ ")"),
     (bp.name ++ "-and-down", "only screen and (max" ++ query ++ ": " ++ getValue next (-1) ++ ")")]
  else [(bp.name, "only screen" ++ lower)]

/-- The min loop of `apply` (descending indices). -/
def minAssigns (query : String) (ns : List BP) : List (String × String) :=
  ((List.range ns.length).reverse.map (minEntry query ns)).flatten

/-- The custom loop of `apply`: every custom breakpoint resolves to its raw
text. -/
def customAssigns (bps : List BP) : List (String × String) :=
  (bps.filter (fun bp => bp.type == "custom")).map fun bp => (bp.name, bp.custom)

/-- Assignment `media[k] = v` on the JavaScript object, keeping key
insertion order. -/
def mediaUpsert (m : List (String × String)) (k v : String) : List (String × String) :=
  if (m.lookup k).isSome then m.map (fun p => if p.1 == k then (k, v) else p)
  else m ++ [(k, v)]

/-- The resolved media map built by `apply` of the current variant.  The
feature name depends on the `device` option; the media-type text is the
literal `"only screen"` in every branch (the `use-only` option is never
read by `apply`). -/
def applyMedia (bps : List BP) (opts : List (String × Bool)) : List (String × String) :=
  let query := if (opts.lookup "device").getD false then "-device-width" else "-width"
  let ms := sortByValue (bps.filter (fun bp => bp.type == "max"))
  let ns := sortByValue (bps.filter (fun bp => bp.type == "min"))
  (maxAssigns query ms ++ minAssigns query ns ++ customAssigns bps).foldl
    (fun m kv => mediaUpsert m kv.1 kv.2) []

/-- Case-insensitive prefix match of the name inside the rewriting regex
(flag `i`). -/
def lcStarts (nm cs : List Char) : Bool :=
  (cs.take nm.length).map Char.toLower = nm.map Char.toLower

/-- The trailing word boundary `(\s|$)` of the rewriting regex. -/
def bAfter : List Char → Bool
  | [] => true
  | c :: _ => isWs c

/-- Global replacement by the regex `(^|\s)name(\s|$)` with replacement
`$1…$2`, as a left-to-right scan.  `bok` tells whether a match may start
here (string start, or the previous character was whitespace and was not
consumed by an earlier match).  A match re-emits the boundary characters
(the regex captures them) and the scan resumes after the consumed trailing
whitespace.  The `fuel` argument only makes the recursion structural so
the kernel can evaluate it; `replaceWord` supplies the scanned string's
length, which the scan can never exhaust because every step consumes at
least one character. -/
def replAux (nm repl : List Char) : ℕ → Bool → List Char → List Char
  | _, bok, [] => if bok && lcStarts nm [] then repl else []
  | 0, _, c :: cs => c :: cs
  | fuel + 1, bok, c :: cs =>
    if bok && lcStarts nm (c :: cs) && bAfter ((c :: cs).drop nm.length) then
      match (c :: cs).drop nm.length with
      | [] => repl
      | d :: rest => repl ++ d :: replAux nm repl fuel false rest
    else c :: replAux nm repl fuel (isWs c) cs

/-- One name's rewriting pass over a media-selector string (the body of
the `Object.keys(media).forEach` / `mediaRules.forEach` loops).  The name
is inserted into the regex verbatim; the names this plugin generates
contain no regex metacharacters, and the resolved query strings contain no
`$`, so plain text substitution is faithful. -/
def replaceWord (nm repl s : String) : String :=
  String.mk (replAux nm.toList repl.toList s.toList.length true s.toList)

/-- Rewriting a selector with the whole media map, names in key insertion
order. -/
def applyToMedia (mm : List (String × String)) (s : String) : String :=
  mm.foldl (fun acc kv => replaceWord kv.1 kv.2 acc) s

mutual
/-- A rule node of the parsed tree: optional media-selector text, optional
declaration list, optional child rules.  `Option` keeps the JavaScript
distinction between an absent field (falsy) and a present empty array
(truthy); an empty media string is falsy and handled at use sites. -/
inductive Rule : Type where
  | node : Option String → Option (List Decl) → Option Rules → Rule
/-- A list of rule nodes, as a mutual type so that the tree traversals
below are structurally recursive (and hence kernel-evaluable). -/
inductive Rules : Type where
  | nil : Rules
  | cons : Rule → Rules → Rules
end

/-- Build a rule list from a Lean list literal. -/
def Rules.ofList : List Rule → Rules
  | [] => .nil
  | r :: rs => .cons r (Rules.ofList rs)

mutual
/-- Source `rules` of the current variant: children first, then the rule's
own declarations through `visit`; media rules are gathered implicitly (the
rewriting below maps over every truthy-media node, which is exactly the
collected set; nothing is ever pruned in this variant). -/
def walkRules (st : St) : Rules → Except String (St × Rules)
  | .nil => .ok (st, .nil)
  | .cons r rs =>
    match walkRule st r with
    | .error e => .error e
    | .ok (st1, r') =>
      match walkRules st1 rs with
      | .error e => .error e
      | .ok (st2, rs') => .ok (st2, .cons r' rs')

/-- One rule of the current variant's walk (see `walkRules`). -/
def walkRule (st : St) : Rule → Except String (St × Rule)
  | .node m ds rs =>
    match (match rs with
           | none => .ok (st, none)
           | some l =>
             match walkRules st l with
             | .error e => .error e
             | .ok (st1, l') => .ok (st1, some l') : Except String (St × Option Rules)) with
    | .error e => .error e
    | .ok (st1, rs') =>
      match ds with
      | none => .ok (st1, .node m none rs')
      | some l =>
        match visit st1 l with
        | .error e => .error e
        | .ok (st2, l') => .ok (st2, .node m (some l') rs')
end

mutual
/-- The rewriting pass of the current variant: every node whose media
selector is truthy gets every resolved name substituted. -/
def rewriteRule (mm : List (String × String)) : Rule → Rule
  | .node m ds rs =>
    .node (m.map fun s => if s = "" then s else applyToMedia mm s) ds
      (match rs with | none => none | some l => some (rewriteRules mm l))

/-- Child-list companion of `rewriteRule`. -/
def rewriteRules (mm : List (String × String)) : Rules → Rules
  | .nil => .nil
  | .cons r rs => .cons (rewriteRule mm r) (rewriteRules mm rs)
end

/-- Source `clean`: resets all shared module state. -/
def clean (_ : St) : St := {}

/-- The exported transform of the current variant, shown with the shared
module state it starts from: `clean` discards it, then the walk collects
breakpoints and options, then `apply` resolves and rewrites. -/
def transformFrom (prior : St) (t : Rules) : Except String Rules :=
  match walkRules (clean prior) t with
  | .error e => .error e
  | .ok (st, t') => .ok (rewriteRules (applyMedia st.breakpoints st.options) t')

/-- `module.exports` of the current variant. -/
def transform (t : Rules) : Except String Rules :=
  transformFrom {} t

mutual
/-- Media-selector strings carried by one rule and its descendants, for
stating claims about what the transform does to selectors. -/
def mediaSelectorsRule : Rule → List String
  | .node m _ rs =>
    (match m with | some s => [s] | none => []) ++
      (match rs with | some l => mediaSelectors l | none => [])

/-- All media-selector strings of a tree. -/
def mediaSelectors : Rules → List String
  | .nil => []
  | .cons r rs => mediaSelectorsRule r ++ mediaSelectors rs
end

namespace Legacy

/-- Legacy `isPoint`: `str.match(/[0-9]+px/)` (px only). -/
def isPoint (str : String) : Bool :=
  let cs := str.toList
  (List.range cs.length).any fun j =>
    (cs.getD j ' ').isDigit && ((cs.drop (j + 1)).take 2 = "px".toList)

/-- Legacy `getTypeAndPoint`: identical to the current one except for its
px-only `isPoint`; accepts the two tokens in either order. -/
def getTypeAndPoint (value : String) : Except String (String × String) :=
  match splitWs value with
  | [a, b] =>
    if isType a && isPoint b then .ok (a, b)
    else if isType b && isPoint a then .ok (b, a)
    else .error "missing type or point, i.e. \"max\" or \"min\" and e.g. \"1000px\" respectively"
  | _ => .error "not in the format: <type> <breakpoint in px>, e.g. \"min 1000px\" or \"max 340px\""

/-- JavaScript `parseInt` on the digit-led strings this variant feeds it;
`none` is NaN. -/
def parseIntZ (s : String) : Option ℤ :=
  let ds := s.toList.takeWhile Char.isDigit
  if ds.isEmpty then none else some (digitsToNat ds : ℤ)

/-- Legacy breakpoint record: `set` stores `{name, type}` and one dynamic
field `bp[type] = point`, kept here as `point` (its key always equals
`type`); `none` models a NaN point. -/
structure LBP where
  name : String
  type : String
  point : Option ℤ
deriving Repr, DecidableEq

instance : Inhabited LBP := ⟨{ name := "", type := "", point := none }⟩

/-- JavaScript `===` on two numbers where `none` is NaN (never equal,
even to itself). -/
def jsNumEq : Option ℤ → Option ℤ → Bool
  | some a, some b => a == b
  | _, _ => false

/-- Legacy `hasBreakpointWithName`. -/
def hasBreakpointWithName (bps : List LBP) (name : String) : Bool :=
  bps.any fun bp => bp.name == name

/-- Legacy `hasBreakpointWithTypeAndPoint`: here `breakpoint[breakpoint.type]`
does find the stored point, so the duplicate check is effective. -/
def hasBreakpointWithTypeAndPoint (bps : List LBP) (type : String) (point : Option ℤ) : Bool :=
  bps.any fun bp => bp.type == type && jsNumEq bp.point point

/-- Number-to-string as used inside the legacy error message and query
strings. -/
def jsNumStr : Option ℤ → String
  | some n => toString n
  | none => "NaN"

/-- Legacy `set`: lower-case, `parseInt(point.slice(0, -2))`, both
uniqueness checks, then push the record with its dynamic field. -/
def set (bps : List LBP) (name type pointStr : String) : Except String (List LBP) :=
  let name := toLowerStr name
  let type := toLowerStr type
  let point := parseIntZ (String.mk (pointStr.toList.take (pointStr.toList.length - 2)))
  if hasBreakpointWithName bps name then
    .error ("Breakpoint with name: " ++ name ++ " is already defined!")
  else if hasBreakpointWithTypeAndPoint bps type point then
    .error ("A breakpoint at: " ++ type ++ " " ++ jsNumStr point ++ "px is already defined!")
  else
    .ok (bps ++ [{ name := name, type := type, point := point }])

/-- Legacy `breakpoint`: no typed-syntax gate, every breakpoint value goes
through `getTypeAndPoint`. -/
def breakpoint (bps : List LBP) (property value : String) : Except String (List LBP) :=
  let name := getBreakpointName property
  match getTypeAndPoint value with
  | .error msg => .error ("Error in breakpoint \"" ++ name ++ "\": " ++ msg)
  | .ok (type, point) => set bps name type point

/-- Legacy `visit`: only breakpoint declarations are recognized and
removed. -/
def visit (bps : List LBP) : List Decl → Except String (List LBP × List Decl)
  | [] => .ok (bps, [])
  | d :: ds =>
    if isBreakpoint d.property then
      match breakpoint bps d.property d.value with
      | .error e => .error e
      | .ok bps' => visit bps' ds
    else
      match visit bps ds with
      | .error e => .error e
      | .ok (bps', ds') => .ok (bps', d :: ds')

/-- Legacy shared module state: it is never reset between invocations. -/
structure LSt where
  mediaRules : List String := []
  breakpoints : List LBP := []
deriving Repr, DecidableEq

mutual
/-- Legacy `rules`: like the current variant but a rule whose declaration
list is present and ends up empty is spliced out of its parent during the
`forEach`, which makes the iteration skip the next sibling (that sibling
stays in the tree unvisited). -/
def rules (st : LSt) : Rules → Except String (LSt × Rules)
  | .nil => .ok (st, .nil)
  | .cons r rs =>
    match ruleStep st r with
    | .error e => .error e
    | .ok (st1, r', keep) =>
      if keep then
        match rules st1 rs with
        | .error e => .error e
        | .ok (st2, rs') => .ok (st2, .cons r' rs')
      else
        match rs with
        | .nil => .ok (st1, .nil)
        | .cons y ys =>
          match rules st1 ys with
          | .error e => .error e
          | .ok (st2, ys') => .ok (st2, .cons y ys')

/-- One rule of the legacy walk: children, media collection, declaration
filtering; the returned flag says whether the rule survives. -/
def ruleStep (st : LSt) : Rule → Except String (LSt × Rule × Bool)
  | .node m ds rs =>
    match (match rs with
           | none => .ok (st, none)
           | some l =>
             match rules st l with
             | .error e => .error e
             | .ok (st1, l') => .ok (st1, some l') : Except String (LSt × Option Rules)) with
    | .error e => .error e
    | .ok (st1, rs') =>
      let st2 := match m with
                 | some s => if s = "" then st1 else { st1 with mediaRules := st1.mediaRules ++ [s] }
                 | none => st1
      match ds with
      | none => .ok (st2, .node m none rs', true)
      | some l =>
        match visit st2.breakpoints l with
        | .error e => .error e
        | .ok (bps', l') =>
          .ok ({ st2 with breakpoints := bps' }, .node m (some l') rs', l'.length != 0)
end

/-- `maxPoints[i-1].max + 1` style arithmetic (NaN absorbs). -/
def jsAdd (p : Option ℤ) (d : ℤ) : Option ℤ := p.map (· + d)

/-- Legacy max-loop assignments at index `i` (declaration order; the
legacy `apply` never sorts). -/
def maxEntry (ms : List LBP) (i : ℕ) : List (String × String) :=
  let bp := ms.getD i default
  let upper := " and (max-device-width: " ++ jsNumStr bp.point ++ "px)"
  if i = 0 then [(bp.name, "only screen" ++ upper)]
  else
    let prev := ms.getD (i - 1) default
    let lower := " and (min-device-width: " ++ jsNumStr (jsAdd prev.point 1) ++ "px)"
    [(bp.name, "only screen" ++ lower ++ upper),
     (bp.name ++ "-and-down", "only screen and (max-device-width: " ++ jsNumStr bp.point ++ "px)"),
     (bp.name ++ "-and-up", "only screen and (min-device-width: " ++ jsNumStr (jsAdd prev.point 1) ++ "px)")]

/-- Legacy min-loop assignments at index `j`. -/
def minEntry (ns : List LBP) (j : ℕ) : List (String × String) :=
  let bp := ns.getD j default
  let lower := " and (min-device-width: " ++ jsNumStr bp.point ++ "px)"
  if j + 1 < ns.length then
    let next := ns.getD (j + 1) default
    let upper := " and (max-device-width: " ++ jsNumStr (jsAdd next.point (-1)) ++ "px)"
    [(bp.name, "only screen" ++ lower ++ upper),
     (bp.name ++ "-and-up", "only screen and (min-device-width: " ++ jsNumStr bp.point ++ "px)"),
     (bp.name ++ "-and-down", "only screen and (max-device-width: " ++ jsNumStr (jsAdd next.point (-1)) ++ "px)")]
  else [(bp.name, "only screen" ++ lower)]

/-- Legacy `apply`'s media map: unsorted filters, hardcoded
`only screen` and `-device-width`. -/
def applyMedia (bps : List LBP) : List (String × String) :=
  let ms := bps.filter (fun bp => bp.type == "max")
  let ns := bps.filter (fun bp => bp.type == "min")
  (((List.range ms.length).map (maxEntry ms)).flatten ++
      ((List.range ns.length).reverse.map (minEntry ns)).flatten).foldl
    (fun m kv => mediaUpsert m kv.1 kv.2) []

mutual
/-- Legacy rewriting: a collected media rule's selector is replaced only
when the whole lower-cased selector is a resolved name with a truthy
resolution.  (The source walks its collected rule list; mapping over the
tree's truthy-media nodes is the same action on the current tree, except
for a node skipped by the splice quirk of `rules` — no claim below
involves that corner.) -/
def rwRule (mm : List (String × String)) : Rule → Rule
  | .node m ds rs =>
    .node (m.map fun s =>
            if s = "" then s
            else match mm.lookup (toLowerStr s) with
                 | some v => if v = "" then s else v
                 | none => s) ds
      (match rs with | none => none | some l => some (rwRules mm l))

/-- Child-list companion of `rwRule`. -/
def rwRules (mm : List (String × String)) : Rules → Rules
  | .nil => .nil
  | .cons r rs => .cons (rwRule mm r) (rwRules mm rs)
end

/-- Legacy `module.exports`: walk then apply, with NO reset — the shared
state flows in from whatever earlier invocations left behind and flows
out augmented. -/
def transform (st : LSt) (t : Rules) : Except String (LSt × Rules) :=
  match rules st t with
  | .error e => .error e
  | .ok (st', t') => .ok (st', rwRules (applyMedia st'.breakpoints) t')

end Legacy

/-- Word boundary to the left: the scanned position is the string start or
follows a whitespace character. -/
def boundaryBefore (pre : List Char) : Bool :=
  match pre.getLast? with
  | none => true
  | some c => isWs c

/-- Existence of a word-boundary-delimited, case-insensitive occurrence of
`nm` in `s`: at some split point the text before ends in a boundary, `nm`
matches, and whitespace or the string end follows — exactly when the
rewriting regex of `apply` has a match. -/
def wordOccurB (nm s : List Char) : Bool :=
  (List.range (s.length + 1)).any fun i =>
    boundaryBefore (s.take i) && lcStarts nm (s.drop i) && bAfter ((s.drop i).drop nm.length)

/-- A declaration the classifier leaves in place (neither an option nor a
breakpoint declaration). -/
def cleanDecl (d : Decl) : Bool :=
  !(isBreakpointsOption d.property || isBreakpoint d.property)

mutual
/-- A rule carrying no breakpoint or option declarations anywhere. -/
def cleanRule : Rule → Bool
  | .node _ ds rs =>
    (match ds with | none => true | some l => l.all cleanDecl) &&
      (match rs with | none => true | some l => cleanRules l)

/-- Tree version of `cleanRule`. -/
def cleanRules : Rules → Bool
  | .nil => true
  | .cons r rs => cleanRule r && cleanRules rs
end

/-- Numeric interval a resolved max-tier query denotes: the query built
for the `i`-th entry of the sorted max list prints the bounds
`getValueNum (ms.getD (i-1)) 1` (only when `i > 0`) and
`getValueNum (ms.getD i) 0` (see `maxEntry` and `getValue`), so a width
`w` satisfies it iff it lies between them. -/
def maxTierMem (ms : List BP) (i : ℕ) (w : ℚ) : Prop :=
  (i = 0 ∨ (getValueNum (ms.getD (i - 1) default) 1).toQ ≤ w) ∧
    w ≤ (getValueNum (ms.getD i default) 0).toQ

/-- Numeric interval a resolved min-tier query denotes (see `minEntry`). -/
def minTierMem (ns : List BP) (j : ℕ) (w : ℚ) : Prop :=
  (getValueNum (ns.getD j default) 0).toQ ≤ w ∧
    (j + 1 = ns.length ∨ w ≤ (getValueNum (ns.getD (j + 1) default) (-1)).toQ)

/-- C2: at Scenario C's input (palm `max 340px`, tab `max 700px`, desk
`min 1000px`, desk-wide `min 1200px`, `breakpoints-device: true`) the
transform rewrites selector `tab-and-up` to
`only screen and (min-device-width: 341px)` and `desk-and-down` to
`only screen and (max-device-width: 1199px)`: the device feature names and
the 341px/1199px tie-break arithmetic are as the claim states, but the
media-type text is the hardcoded `only screen`, not the `screen` the claim
(following the README's Example 4) specifies — `apply` never consults the
`use-only` option and writes `only screen` in every branch. -/
theorem c2_code_eval :
    (transform (Rules.ofList
        [.node none (some [⟨"breakpoints-device", "true"⟩, ⟨"breakpoint-palm", "max 340px"⟩,
            ⟨"breakpoint-tab", "max 700px"⟩, ⟨"breakpoint-desk", "min 1000px"⟩,
            ⟨"breakpoint-desk-wide", "min 1200px"⟩]) none,
          .node (some "tab-and-up") none none,
          .node (some "desk-and-down") none none])).map mediaSelectors =
      .ok ["only screen and (min-device-width: 341px)",
           "only screen and (max-device-width: 1199px)"] := rfl

/-- C3: the feature-name half of the claim is implemented (`min-width` and
`max-width` without the `device` option, `min-device-width` and
`max-device-width` with it), but the media-type half is not: the resolved
queries read `only screen` whether `use-only` is false (absent) or true,
because `apply` hardcodes the prefix — contradicting the README, which
documents `screen` as the default with `breakpoints-use-only` opting into
`only screen`. -/
theorem c3_code_eval :
    (transform (Rules.ofList
        [.node none (some [⟨"breakpoint-mobile", "max 340px"⟩]) none,
          .node (some "mobile") none none])).map mediaSelectors =
      .ok ["only screen and (max-width: 340px)"] ∧
    (transform (Rules.ofList
        [.node none (some [⟨"breakpoints-use-only", "true"⟩,
            ⟨"breakpoint-mobile", "max 340px"⟩]) none,
          .node (some "mobile") none none])).map mediaSelectors =
      .ok ["only screen and (max-width: 340px)"] ∧
    applyMedia [{ name := "mobile", type := "max", value := ⟨340, 0⟩, unit := "px",
                  factor := ⟨1, 0⟩ }] [("use-only", false)] =
      applyMedia [{ name := "mobile", type := "max", value := ⟨340, 0⟩, unit := "px",
                    factor := ⟨1, 0⟩ }] [("use-only", true)] ∧
    applyMedia [{ name := "mobile", type := "max", value := ⟨340, 0⟩, unit := "px",
                  factor := ⟨1, 0⟩ }] [("device", true)] =
      [("mobile", "only screen and (max-device-width: 340px)")] :=
  ⟨rfl, rfl, rfl, rfl⟩

/-- C5 counterexample: the declaration `breakpoint-d: 1000px min` is NOT
registered as a typed breakpoint — `hasSpecialSyntax` demands the type
token first, so the value fails the gate and `setCustom` registers it as
a custom breakpoint (type `custom`, raw text kept verbatim), contradicting
the claim that both token orders yield the same typed registration. -/
theorem c5_counterexample :
    (visit {} [⟨"breakpoint-d", "1000px min"⟩]).map
        (fun p => p.1.breakpoints.map (fun bp => bp.type)) = .ok ["custom"] := rfl

/-- C5 amended: only the type-first order `min 1000px` passes the typed
gate and registers a typed breakpoint; the point-first order `1000px min`
fails the gate and registers a custom breakpoint carrying the raw text.
The order-insensitivity the claim describes lives in `getTypeAndPoint`
(both variants accept either token order, and the legacy variant — which
has no gate — does register both orders identically), but in the current
variant the reversed order never reaches it. -/
theorem c5_amended :
    hasSpecialSyntax "min 1000px" = true ∧ hasSpecialSyntax "1000px min" = false ∧
    (visit {} [⟨"breakpoint-d", "min 1000px"⟩]).map (fun p => p.1.breakpoints) =
      .ok [{ name := "d", type := "min", value := ⟨1000, 0⟩, unit := "px", factor := ⟨1, 0⟩ }] ∧
    (visit {} [⟨"breakpoint-d", "1000px min"⟩]).map (fun p => p.1.breakpoints) =
      .ok [{ name := "d", type := "custom", custom := "1000px min" }] ∧
    Legacy.getTypeAndPoint "1000px min" = .ok ("min", "1000px") ∧
    Legacy.getTypeAndPoint "min 1000px" = .ok ("min", "1000px") ∧
    getTypeAndPoint "1000px min" = .ok ("min", "1000px") ∧
    (Legacy.visit [] [⟨"breakpoint-d", "1000px min"⟩]).map (fun p => p.1) =
      .ok [{ name := "d", type := "min", point := some 1000 }] ∧
    (Legacy.visit [] [⟨"breakpoint-d", "min 1000px"⟩]).map (fun p => p.1) =
      .ok [{ name := "d", type := "min", point := some 1000 }] :=
  ⟨rfl, rfl, rfl, rfl, rfl, rfl, rfl, rfl, rfl⟩

/-- C6: registering two typed breakpoints with the same kind and point
under different names does NOT fail in the current variant — both records
are added and the walk succeeds.  The duplicate check compares
`breakpoint[breakpoint.type] === point`, but this variant's records have
no field named after their type, so the lookup is `undefined` and the
check can never fire; the legacy variant (which stores `bp[type] = point`)
does raise exactly the claimed error, showing the check's intent. -/
theorem c6_code_eval :
    (visit {} [⟨"breakpoint-a", "max 340px"⟩, ⟨"breakpoint-b", "max 340px"⟩]).map
        (fun p => (p.1.breakpoints, p.2)) =
      .ok ([{ name := "a", type := "max", value := ⟨340, 0⟩, unit := "px", factor := ⟨1, 0⟩ },
            { name := "b", type := "max", value := ⟨340, 0⟩, unit := "px", factor := ⟨1, 0⟩ }],
           []) ∧
    hasBreakpointWithTypeAndPoint
        [{ name := "a", type := "max", value := ⟨340, 0⟩, unit := "px", factor := ⟨1, 0⟩ }]
        "max" "340px" = false ∧
    Legacy.set [{ name := "a", type := "max", point := some 340 }] "b" "max" "340px" =
      .error "A breakpoint at: max 340px is already defined!" :=
  ⟨rfl, rfl, rfl⟩

/-- C7: the value `min .px` partially matches the typed syntax (it passes
the `hasSpecialSyntax` gate, whose numeral class `[0-9.]+` accepts a bare
dot) but fails type/point validation inside `getTypeAndPoint` (neither
token pairing gives a valid type and point), so the transform aborts with
the descriptive parse error naming the breakpoint, propagated to the
caller as the run's result. -/
theorem c7_parse_error :
    transform (Rules.ofList [.node none (some [⟨"breakpoint-bad", "min .px"⟩]) none]) =
      .error "Error in breakpoint \"bad\": missing type or point, i.e. \"max\" or \"min\" and e.g. \"1000px\" respectively" := rfl

/-- C10 counterexample: the legacy variant's transform does NOT begin with
empty shared state.  A first invocation on a tree declaring
`breakpoint-palm: max 340px` leaves the breakpoint in the module state; a
second invocation on the same tree then fails with a duplicate-name error,
so the result depends on the earlier call. -/
theorem c10_counterexample :
    (Legacy.transform {} (Rules.ofList
        [.node none (some [⟨"breakpoint-palm", "max 340px"⟩, ⟨"color", "red"⟩]) none])).map
        (fun p => p.1) =
      .ok { mediaRules := [],
            breakpoints := [{ name := "palm", type := "max", point := some 340 }] } ∧
    Legacy.transform
        { mediaRules := [], breakpoints := [{ name := "palm", type := "max", point := some 340 }] }
        (Rules.ofList
          [.node none (some [⟨"breakpoint-palm", "max 340px"⟩, ⟨"color", "red"⟩]) none]) =
      .error "Breakpoint with name: palm is already defined!" :=
  ⟨rfl, rfl⟩

/-- C10 amended: the CURRENT variant's transform calls `clean` first, so
whatever shared state earlier invocations left behind is discarded and the
result is a function of the tree alone; the legacy variant has no reset
and leaks state across invocations (see the counterexample). -/
theorem c10_reset_independent :
    ∀ (s₁ s₂ : St) (t : Rules), transformFrom s₁ t = transformFrom s₂ t :=
  fun _ _ _ => rfl

/-- C4 counterexample: for a max set with a single (hence smallest)
breakpoint the resolver defines no `-and-down` name, and for a min set
with a single (hence largest) breakpoint it defines no `-and-up` name —
both synthesized names exist only for the non-boundary tiers, contrary to
the claim's "including" clauses. -/
theorem c4_counterexample :
    (applyMedia [{ name := "mobile", type := "max", value := ⟨340, 0⟩, unit := "px",
                   factor := ⟨1, 0⟩ }] []).lookup "mobile-and-down" = none ∧
    (applyMedia [{ name := "desk", type := "min", value := ⟨1000, 0⟩, unit := "px",
                   factor := ⟨1, 0⟩ }] []).lookup "desk-and-up" = none :=
  ⟨rfl, rfl⟩

/-- C4 amended: the synthesized names exist exactly for the non-boundary
tiers, with the values the claim gives.  For every index `i > 0` of the
sorted max list the resolver emits `name-and-down` mapped to
`only screen and (max<feature>: value)` (the tier's own point, cumulative)
and `name-and-up` mapped to the previous point plus the tie-break delta;
for every non-last index `j` of the sorted min list it emits `name-and-up`
at the tier's own point and `name-and-down` at the next point minus the
delta.  (At `i = 0`, and at the last `j`, nothing is synthesized — see the
counterexample.) -/
theorem c4_amended :
    (∀ (query : String) (ms : List BP) (i : ℕ), 0 < i → i < ms.length →
      ((ms.getD i default).name ++ "-and-down",
        "only screen and (max" ++ query ++ ": " ++ getValue (ms.getD i default) 0 ++ ")")
        ∈ maxAssigns query ms ∧
      ((ms.getD i default).name ++ "-and-up",
        "only screen and (min" ++ query ++ ": " ++ getValue (ms.getD (i - 1) default) 1 ++ ")")
        ∈ maxAssigns query ms) ∧
    (∀ (query : String) (ns : List BP) (j : ℕ), j + 1 < ns.length →
      ((ns.getD j default).name ++ "-and-up",
        "only screen and (min" ++ query ++ ": " ++ getValue (ns.getD j default) 0 ++ ")")
        ∈ minAssigns query ns ∧
      ((ns.getD j default).name ++ "-and-down",
        "only screen and (max" ++ query ++ ": " ++ getValue (ns.getD (j + 1) default) (-1) ++ ")")
        ∈ minAssigns query ns) := by
  constructor
  · intro query ms i hi hlen
    have hmem : maxEntry query ms i ∈ (List.range ms.length).map (maxEntry query ms) :=
      List.mem_map_of_mem _ (List.mem_range.mpr hlen)
    constructor
    · exact List.mem_flatten.mpr ⟨maxEntry query ms i, hmem, by simp [maxEntry, hi.ne']⟩
    · exact List.mem_flatten.mpr ⟨maxEntry query ms i, hmem, by simp [maxEntry, hi.ne']⟩
  · intro query ns j hj
    have hmem : minEntry query ns j ∈ (List.range ns.length).reverse.map (minEntry query ns) :=
      List.mem_map_of_mem _ (List.mem_reverse.mpr (List.mem_range.mpr (lt_trans (Nat.lt_succ_self j) hj)))
    constructor
    · exact List.mem_flatten.mpr ⟨minEntry query ns j, hmem, by simp [minEntry, hj]⟩
    · exact List.mem_flatten.mpr ⟨minEntry query ns j, hmem, by simp [minEntry, hj]⟩

/-- Witness for `c4_amended` at the sorted max list palm, tab with the
default `-width` feature: tab's `-and-down` entry is emitted. -/
theorem c4_amended_witness :
    (0 < 1 ∧ 1 < ([{ name := "palm", type := "max", value := ⟨340, 0⟩, unit := "px",
                      factor := ⟨1, 0⟩ },
                    { name := "tab", type := "max", value := ⟨700, 0⟩, unit := "px",
                      factor := ⟨1, 0⟩ }] : List BP).length) ∧
    ("tab-and-down", "only screen and (max-width: 700px)")
      ∈ maxAssigns "-width"
          [{ name := "palm", type := "max", value := ⟨340, 0⟩, unit := "px", factor := ⟨1, 0⟩ },
           { name := "tab", type := "max", value := ⟨700, 0⟩, unit := "px", factor := ⟨1, 0⟩ }] :=
  ⟨⟨by decide, by decide⟩,
    (c4_amended.1 "-width"
      [{ name := "palm", type := "max", value := ⟨340, 0⟩, unit := "px", factor := ⟨1, 0⟩ },
       { name := "tab", type := "max", value := ⟨700, 0⟩, unit := "px", factor := ⟨1, 0⟩ }]
      1 (by decide) (by decide)).1⟩

/-- A word-boundary match found mid-scan exhibits an occurrence in the
whole string. -/
theorem wordOccurB_at (nm pre cs : List Char)
    (h : (boundaryBefore pre && lcStarts nm cs && bAfter (cs.drop nm.length)) = true) :
    wordOccurB nm (pre ++ cs) = true := by
  unfold wordOccurB
  apply List.any_eq_true.mpr
  refine ⟨pre.length, List.mem_range.mpr ?_, ?_⟩
  · simp [List.length_append]
    omega
  · rw [List.take_left, List.drop_left]
    exact h

/-- The rewriting scan leaves its input untouched when the scanned suffix
contains no word-boundary occurrence of the name.  `pre` is the already
scanned text, and `bok` agrees with its final boundary state. -/
theorem replAux_no_occur (nm repl : List Char) :
    ∀ (fuel : ℕ) (cs pre : List Char) (bok : Bool), cs.length ≤ fuel →
      bok = boundaryBefore pre → wordOccurB nm (pre ++ cs) = false →
      replAux nm repl fuel bok cs = cs := by
  intro fuel
  induction fuel with
  | zero =>
    intro cs pre bok hf hb hw
    have hcs : cs = [] := List.eq_nil_of_length_eq_zero (Nat.le_zero.mp hf)
    subst hcs
    have hcond : (bok && lcStarts nm []) = false := by
      by_contra hc
      rw [Bool.not_eq_false] at hc
      have h2 : (boundaryBefore pre && lcStarts nm [] && bAfter (List.drop nm.length [])) = true := by
        rw [← hb]
        simpa [bAfter] using hc
      have := wordOccurB_at nm pre [] h2
      rw [List.append_nil] at hw
      simp [hw] at this
    simp [replAux, hcond]
  | succ n ih =>
    intro cs pre bok hf hb hw
    cases cs with
    | nil =>
      have hcond : (bok && lcStarts nm []) = false := by
        by_contra hc
        rw [Bool.not_eq_false] at hc
        have h2 : (boundaryBefore pre && lcStarts nm [] && bAfter (List.drop nm.length [])) = true := by
          rw [← hb]
          simpa [bAfter] using hc
        have := wordOccurB_at nm pre [] h2
        rw [List.append_nil] at hw
        simp [hw] at this
      simp [replAux, hcond]
    | cons c cs' =>
      have hcond : (bok && lcStarts nm (c :: cs') && bAfter ((c :: cs').drop nm.length)) = false := by
        by_contra hc
        rw [Bool.not_eq_false] at hc
        have h2 : (boundaryBefore pre && lcStarts nm (c :: cs') &&
            bAfter ((c :: cs').drop nm.length)) = true := by
          rw [← hb]
          exact hc
        have := wordOccurB_at nm pre (c :: cs') h2
        simp [hw] at this
      have hrec : replAux nm repl n (isWs c) cs' = cs' := by
        apply ih cs' (pre ++ [c]) (isWs c)
        · exact Nat.le_of_succ_le_succ hf
        · simp [boundaryBefore, List.getLast?_concat]
        · simpa [List.append_assoc] using hw
      simp [replAux, hcond, hrec]

/-- C8: a breakpoint name occurring in a media selector only as a proper
substring of a longer token — never delimited by whitespace or the string
ends, so `wordOccurB` is false — is not rewritten: one pass of the media
rewriter's per-name substitution returns the selector unchanged. -/
theorem c8_word_boundary (name repl s : String)
    (h : wordOccurB name.toList s.toList = false) :
    replaceWord name repl s = s := by
  unfold replaceWord
  rw [replAux_no_occur name.toList repl.toList s.toList.length s.toList [] true le_rfl rfl
    (by simpa using h)]
  cases s
  rfl

/-- Witness for `c8_word_boundary`: the selector `abc-mobile` is untouched
by a breakpoint named `mobile`. -/
theorem c8_word_boundary_witness :
    wordOccurB "mobile".toList "abc-mobile".toList = false ∧
    replaceWord "mobile" "only screen and (max-width: 340px)" "abc-mobile" = "abc-mobile" :=
  ⟨by decide, c8_word_boundary "mobile" "only screen and (max-width: 340px)" "abc-mobile" (by decide)⟩

/-- `visit` is the identity on a declaration list with no breakpoint or
option declarations. -/
theorem visit_clean_id (st : St) :
    ∀ ds : List Decl, ds.all cleanDecl = true → visit st ds = .ok (st, ds) := by
  intro ds
  induction ds with
  | nil => intro; rfl
  | cons d ds ih =>
    intro h
    rw [List.all_cons, Bool.and_eq_true] at h
    have hopt : isBreakpointsOption d.property = false := by
      have := h.1
      simp [cleanDecl] at this
      exact this.1
    have hbp : isBreakpoint d.property = false := by
      have := h.1
      simp [cleanDecl] at this
      exact this.2
    simp [visit, hopt, hbp, ih h.2]

/-- Every declaration `visit` keeps is neither a breakpoint nor an option
declaration. -/
theorem visit_result_clean :
    ∀ (ds : List Decl) (st st' : St) (ds' : List Decl),
      visit st ds = .ok (st', ds') → ds'.all cleanDecl = true := by
  intro ds
  induction ds with
  | nil =>
    intro st st' ds' h
    simp [visit] at h
    rw [h.2]
    rfl
  | cons d ds ih =>
    intro st st' ds' h
    rw [visit] at h
    cases hopt : isBreakpointsOption d.property with
    | true =>
      rw [hopt] at h
      simp only [if_true] at h
      exact ih _ _ _ h
    | false =>
      rw [hopt] at h
      simp only [if_false, Bool.false_eq_true] at h
      cases hbp : isBreakpoint d.property with
      | true =>
        rw [hbp] at h
        simp only [if_true] at h
        cases hb : breakpoint st.breakpoints d.property d.value with
        | error e => rw [hb] at h; cases h
        | ok bps => rw [hb] at h; exact ih _ _ _ h
      | false =>
        rw [hbp] at h
        simp only [if_false, Bool.false_eq_true] at h
        cases hv : visit st ds with
        | error e => rw [hv] at h; cases h
        | ok p =>
          obtain ⟨st1, ds1⟩ := p
          rw [hv] at h
          cases h
          simp [List.all_cons, cleanDecl, hopt, hbp, ih _ _ _ hv]

mutual
/-- The walk is the identity on a tree with no breakpoint or option
declarations. -/
theorem walkRules_clean_id :
    ∀ (rs : Rules) (st : St), cleanRules rs = true → walkRules st rs = .ok (st, rs)
  | .nil, _, _ => rfl
  | .cons r rs, st, h => by
    rw [cleanRules, Bool.and_eq_true] at h
    simp [walkRules, walkRule_clean_id r st h.1, walkRules_clean_id rs st h.2]
termination_by rs _ _ => sizeOf rs

/-- Single-rule version of `walkRules_clean_id`. -/
theorem walkRule_clean_id :
    ∀ (r : Rule) (st : St), cleanRule r = true → walkRule st r = .ok (st, r)
  | .node m ds rs, st, h => by
    cases rs with
    | none =>
      cases ds with
      | none => rfl
      | some l =>
        have hdl : l.all cleanDecl = true := by simpa [cleanRule] using h
        simp [walkRule, visit_clean_id st l hdl]
    | some lr =>
      cases ds with
      | none =>
        have hlr : cleanRules lr = true := by simpa [cleanRule] using h
        simp [walkRule, walkRules_clean_id lr st hlr]
      | some l =>
        have h2 : l.all cleanDecl = true ∧ cleanRules lr = true := by
          simpa [cleanRule, Bool.and_eq_true] using h
        simp [walkRule, walkRules_clean_id lr st h2.2, visit_clean_id st l h2.1]
termination_by r _ _ => sizeOf r
end

mutual
/-- A successful walk leaves no breakpoint or option declarations in the
returned tree. -/
theorem walkRules_result_clean :
    ∀ (rs : Rules) (st st' : St) (rs' : Rules),
      walkRules st rs = .ok (st', rs') → cleanRules rs' = true
  | .nil, st, st', rs', h => by
    rw [walkRules] at h
    cases h
    rfl
  | .cons r rs, st, st', rs', h => by
    rw [walkRules] at h
    cases hr : walkRule st r with
    | error e =>
      rw [hr] at h
      dsimp only at h
      exact Except.noConfusion h
    | ok p =>
      obtain ⟨st1, r1⟩ := p
      rw [hr] at h
      dsimp only at h
      cases hrs : walkRules st1 rs with
      | error e =>
        rw [hrs] at h
        dsimp only at h
        exact Except.noConfusion h
      | ok q =>
        obtain ⟨st2, rs2⟩ := q
        rw [hrs] at h
        dsimp only at h
        cases h
        rw [cleanRules, Bool.and_eq_true]
        exact ⟨walkRule_result_clean r st st1 r1 hr,
          walkRules_result_clean rs st1 _ rs2 hrs⟩
termination_by rs _ _ _ _ => sizeOf rs

/-- Single-rule version of `walkRules_result_clean`. -/
theorem walkRule_result_clean :
    ∀ (r : Rule) (st st' : St) (r' : Rule),
      walkRule st r = .ok (st', r') → cleanRule r' = true
  | .node m ds rs, st, st', r', h => by
    cases rs with
    | none =>
      cases ds with
      | none =>
        have h2 : Except.ok ((st : St), Rule.node m none none) = Except.ok (st', r') := h
        cases h2
        rfl
      | some l =>
        simp only [walkRule] at h
        try dsimp only at h
        cases hv : visit st l with
        | error e =>
          rw [hv] at h
          dsimp only at h
          exact Except.noConfusion h
        | ok p =>
          obtain ⟨st2, l2⟩ := p
          rw [hv] at h
          dsimp only at h
          cases h
          have hall := visit_result_clean l st _ l2 hv
          simp [cleanRule, hall]
    | some lr =>
      simp only [walkRule] at h
      try dsimp only at h
      cases hw : walkRules st lr with
      | error e =>
        rw [hw] at h
        dsimp only at h
        exact Except.noConfusion h
      | ok q =>
        obtain ⟨st1, lr2⟩ := q
        rw [hw] at h
        dsimp only at h
        cases ds with
        | none =>
          try dsimp only at h
          cases h
          have hcl := walkRules_result_clean lr st _ lr2 hw
          simp [cleanRule, hcl]
        | some l =>
          try dsimp only at h
          cases hv : visit st1 l with
          | error e =>
            rw [hv] at h
            dsimp only at h
            exact Except.noConfusion h
          | ok p =>
            obtain ⟨st2, l2⟩ := p
            rw [hv] at h
            dsimp only at h
            cases h
            have hcl := walkRules_result_clean lr st _ lr2 hw
            have hall := visit_result_clean l st1 _ l2 hv
            simp [cleanRule, hcl, hall]
termination_by r _ _ _ _ => sizeOf r
end

mutual
/-- Rewriting with an empty media map changes nothing. -/
theorem rewriteRules_nil : ∀ rs : Rules, rewriteRules [] rs = rs
  | .nil => rfl
  | .cons r rs => by rw [rewriteRules, rewriteRule_nil r, rewriteRules_nil rs]
termination_by rs => sizeOf rs

/-- Single-rule version of `rewriteRules_nil`. -/
theorem rewriteRule_nil : ∀ r : Rule, rewriteRule [] r = r
  | .node m ds rs => by
    cases rs with
    | none => cases m with
      | none => rfl
      | some s => simp [rewriteRule, applyToMedia]
    | some l => cases m with
      | none => simp [rewriteRule, rewriteRules_nil l]
      | some s => simp [rewriteRule, applyToMedia, rewriteRules_nil l]
termination_by r => sizeOf r
end

mutual
/-- Rewriting only touches media selectors, so it preserves the absence of
breakpoint and option declarations. -/
theorem rewriteRules_clean :
    ∀ (mm : List (String × String)) (rs : Rules),
      cleanRules (rewriteRules mm rs) = cleanRules rs
  | _, .nil => rfl
  | mm, .cons r rs => by
    rw [rewriteRules, cleanRules, rewriteRule_clean mm r, rewriteRules_clean mm rs, cleanRules]
termination_by _ rs => sizeOf rs

/-- Single-rule version of `rewriteRules_clean`. -/
theorem rewriteRule_clean :
    ∀ (mm : List (String × String)) (r : Rule),
      cleanRule (rewriteRule mm r) = cleanRule r
  | mm, .node m ds rs => by
    cases rs with
    | none => rfl
    | some l => simp [rewriteRule, cleanRule, rewriteRules_clean mm l]
termination_by _ r => sizeOf r
end

/-- C9: on a tree whose declarations contain no breakpoint or
breakpoints-option properties the transform is the identity (in
particular every media selector is unchanged: with nothing collected the
resolved media map is empty and the rewriter substitutes nothing), and
since a successful transform strips every breakpoint and option
declaration, transforming an already-transformed tree returns it
unchanged — transform twice equals transform once. -/
theorem c9_idempotent :
    (∀ t : Rules, cleanRules t = true → transform t = .ok t) ∧
    (∀ t t' : Rules, transform t = .ok t' → transform t' = .ok t') := by
  have part1 : ∀ t : Rules, cleanRules t = true → transform t = .ok t := by
    intro t ht
    unfold transform transformFrom
    rw [show clean {} = {} from rfl, walkRules_clean_id t {} ht]
    dsimp only
    rw [show applyMedia [] [] = [] from rfl, rewriteRules_nil]
  refine ⟨part1, fun t t' h => ?_⟩
  unfold transform transformFrom at h
  split at h
  · cases h
  · rename_i st t2 heq
    cases h
    apply part1
    rw [rewriteRules_clean]
    exact walkRules_result_clean t (clean {}) st t2 heq

/-- Witness for `c9_idempotent`: an already-transformed tree (a media rule
and a plain declaration, no breakpoint properties) maps to itself. -/
theorem c9_idempotent_witness :
    cleanRules (Rules.ofList
        [.node (some "only screen and (max-width: 340px)") none
          (some (Rules.ofList [.node none (some [⟨"color", "red"⟩]) none]))]) = true ∧
    transform (Rules.ofList
        [.node (some "only screen and (max-width: 340px)") none
          (some (Rules.ofList [.node none (some [⟨"color", "red"⟩]) none]))]) =
      .ok (Rules.ofList
        [.node (some "only screen and (max-width: 340px)") none
          (some (Rules.ofList [.node none (some [⟨"color", "red"⟩]) none]))]) :=
  ⟨by decide, c9_idempotent.1 _ (by decide)⟩

/-- Decimal addition agrees with rational addition. -/
theorem JNum.toQ_add (a b : JNum) : (a.add b).toQ = a.toQ + b.toQ := by
  unfold JNum.add JNum.toQ
  have ha : ((10 : ℚ) ^ a.exp) ≠ 0 := pow_ne_zero _ (by norm_num)
  have hb : ((10 : ℚ) ^ b.exp) ≠ 0 := pow_ne_zero _ (by norm_num)
  rw [div_add_div _ _ ha hb, pow_add]
  push_cast
  ring

/-- Decimal scaling agrees with rational scaling. -/
theorem JNum.toQ_smul (m : ℤ) (a : JNum) : (JNum.smul m a).toQ = m * a.toQ := by
  unfold JNum.smul JNum.toQ
  push_cast
  ring

/-- The rational content of the bound `getValue` prints. -/
theorem getValueNum_toQ (bp : BP) (m : ℤ) :
    (getValueNum bp m).toQ = bp.value.toQ + m * bp.factor.toQ := by
  unfold getValueNum
  rw [JNum.toQ_add, JNum.toQ_smul]

/-- A decimal with exponent zero is its integer numerator. -/
theorem JNum.toQ_exp_zero (x : JNum) (h : x.exp = 0) : x.toQ = (x.num : ℚ) := by
  simp [JNum.toQ, h]

/-- Strict monotonicity of the point values along a strictly sorted
breakpoint list, at arbitrary positions. -/
theorem chain_lt_getD (ms : List BP)
    (h : List.Chain' (fun a b : BP => a.value.toQ < b.value.toQ) ms) :
    ∀ i j, i < j → j < ms.length →
      (ms.getD i default).value.toQ < (ms.getD j default).value.toQ := by
  intro i j hij hj
  haveI : IsTrans BP (fun a b : BP => a.value.toQ < b.value.toQ) :=
    ⟨fun _ _ _ => lt_trans⟩
  have hp := List.chain'_iff_pairwise.mp h
  rw [List.getD_eq_getElem ms default (lt_trans hij hj), List.getD_eq_getElem ms default hj]
  exact List.pairwise_iff_getElem.mp hp i j (lt_trans hij hj) hj hij

/-- An entry read by `getD` at a valid index is a member. -/
theorem getD_mem (ms : List BP) (i : ℕ) (hi : i < ms.length) : ms.getD i default ∈ ms := by
  rw [List.getD_eq_getElem ms default hi]
  exact List.getElem_mem hi

/-- Coverage of the max half-line: every integer width up to the largest
point of an integer-px max list lies in some tier. -/
theorem maxCoverAux :
    ∀ ms : List BP, (∀ bp ∈ ms, bp.factor = (⟨1, 0⟩ : JNum)) →
      (∀ bp ∈ ms, bp.value.exp = 0) →
      ∀ (w : ℤ) (hne : ms ≠ []), w ≤ (ms.getLast hne).value.num →
      ∃ i, i < ms.length ∧ maxTierMem ms i (w : ℚ) := by
  intro ms
  induction ms with
  | nil => intro _ _ w hne _; exact absurd rfl hne
  | cons a t ih =>
    intro hfac hint w hne hw
    by_cases hwa : (w : ℚ) ≤ a.value.toQ
    · refine ⟨0, Nat.succ_pos _, Or.inl rfl, ?_⟩
      rw [getValueNum_toQ]
      simpa using hwa
    · push_neg at hwa
      cases t with
      | nil =>
        exfalso
        have ha0 : a.value.toQ = (a.value.num : ℚ) :=
          JNum.toQ_exp_zero _ (hint a (List.mem_cons_self a []))
        rw [ha0] at hwa
        have : (w : ℚ) ≤ (a.value.num : ℚ) := by
          exact_mod_cast (by simpa [List.getLast] using hw : w ≤ a.value.num)
        exact absurd this (not_le.mpr hwa)
      | cons b t' =>
        have hne' : (b :: t') ≠ [] := List.cons_ne_nil b t'
        have hlast : (a :: b :: t').getLast hne = (b :: t').getLast hne' :=
          List.getLast_cons hne'
        obtain ⟨i, hi, hlow, hup⟩ :=
          ih (fun bp hbp => hfac bp (List.mem_cons_of_mem a hbp))
            (fun bp hbp => hint bp (List.mem_cons_of_mem a hbp)) w hne'
            (by rw [← hlast]; exact hw)
        have hgetD : ∀ k : ℕ, (a :: b :: t').getD (k + 1) default = (b :: t').getD k default :=
          fun k => List.getD_cons_succ
        refine ⟨i + 1, Nat.succ_lt_succ hi, Or.inr ?_, ?_⟩
        · show (getValueNum ((a :: b :: t').getD (i + 1 - 1) default) 1).toQ ≤ (w : ℚ)
          cases i with
          | zero =>
            show (getValueNum ((a :: b :: t').getD 0 default) 1).toQ ≤ (w : ℚ)
            rw [List.getD_cons_zero, getValueNum_toQ,
              hfac a (List.mem_cons_self a _),
              JNum.toQ_exp_zero _ (hint a (List.mem_cons_self a _))]
            have h1 : (⟨1, 0⟩ : JNum).toQ = 1 := by norm_num [JNum.toQ]
            rw [h1]
            have hnum : a.value.num < w := by
              have := hwa
              rw [JNum.toQ_exp_zero _ (hint a (List.mem_cons_self a _))] at this
              exact_mod_cast this
            have h2 : (a.value.num : ℚ) + 1 ≤ (w : ℚ) := by
              exact_mod_cast Int.add_one_le_iff.mpr hnum
            push_cast
            linarith
          | succ i' =>
            have := hlow.resolve_left (Nat.succ_ne_zero i')
            show (getValueNum ((a :: b :: t').getD (i' + 1) default) 1).toQ ≤ (w : ℚ)
            rw [hgetD i']
            simpa using this
        · rw [hgetD i]
          exact hup

/-- Coverage of the min half-line: every integer width from the smallest
point of an integer-px min list upward lies in some tier. -/
theorem minCoverAux :
    ∀ ns : List BP, (∀ bp ∈ ns, bp.factor = (⟨1, 0⟩ : JNum)) →
      (∀ bp ∈ ns, bp.value.exp = 0) →
      ∀ (w : ℤ) (hne : ns ≠ []), (ns.head hne).value.num ≤ w →
      ∃ j, j < ns.length ∧ minTierMem ns j (w : ℚ) := by
  intro ns
  induction ns with
  | nil => intro _ _ w hne _; exact absurd rfl hne
  | cons a t ih =>
    intro hfac hint w hne hw
    have hlow : (getValueNum ((a :: t).getD 0 default) 0).toQ ≤ (w : ℚ) := by
      rw [List.getD_cons_zero, getValueNum_toQ,
        JNum.toQ_exp_zero _ (hint a (List.mem_cons_self a _))]
      have : (a.value.num : ℚ) ≤ (w : ℚ) := by exact_mod_cast hw
      simpa using this
    cases t with
    | nil => exact ⟨0, Nat.succ_pos _, hlow, Or.inl rfl⟩
    | cons b t' =>
      by_cases hwb : (w : ℚ) ≤ (getValueNum b (-1)).toQ
      · refine ⟨0, Nat.succ_pos _, hlow, Or.inr ?_⟩
        show (w : ℚ) ≤ (getValueNum ((a :: b :: t').getD 1 default) (-1)).toQ
        simpa using hwb
      · push_neg at hwb
        have hbw : b.value.num ≤ w := by
          rw [getValueNum_toQ, hfac b (List.mem_cons_of_mem a (List.mem_cons_self b t')),
            JNum.toQ_exp_zero _ (hint b (List.mem_cons_of_mem a (List.mem_cons_self b t')))] at hwb
          have h1 : (⟨1, 0⟩ : JNum).toQ = 1 := by norm_num [JNum.toQ]
          rw [h1] at hwb
          have : (b.value.num : ℚ) - 1 < (w : ℚ) := by push_cast at hwb ⊢; linarith
          have h2 : b.value.num - 1 < w := by exact_mod_cast this
          omega
        obtain ⟨j, hj, hjlow, hjup⟩ :=
          ih (fun bp hbp => hfac bp (List.mem_cons_of_mem a hbp))
            (fun bp hbp => hint bp (List.mem_cons_of_mem a hbp)) w
            (List.cons_ne_nil b t') (by simpa [List.head] using hbw)
        have hgetD : ∀ k : ℕ, (a :: b :: t').getD (k + 1) default = (b :: t').getD k default :=
          fun k => List.getD_cons_succ
        refine ⟨j + 1, Nat.succ_lt_succ hj, ?_, ?_⟩
        · rw [hgetD j]
          exact hjlow
        · cases hjup with
          | inl hlen => exact Or.inl (by simpa using congrArg Nat.succ hlen)
          | inr hb2 =>
            refine Or.inr ?_
            show (w : ℚ) ≤ (getValueNum ((a :: b :: t').getD (j + 1 + 1) default) (-1)).toQ
            rw [hgetD (j + 1)]
            exact hb2

/-- Disjointness of the max tiers of a strictly sorted px list. -/
theorem maxDisjointAux (ms : List BP) (hfac : ∀ bp ∈ ms, bp.factor = (⟨1, 0⟩ : JNum))
    (hch : List.Chain' (fun a b : BP => a.value.toQ < b.value.toQ) ms) :
    ∀ (i j : ℕ) (w : ℚ), i < j → j < ms.length →
      maxTierMem ms i w → maxTierMem ms j w → False := by
  intro i j w hij hj hmi hmj
  have hj0 : j ≠ 0 := Nat.pos_iff_ne_zero.mp (lt_of_le_of_lt (Nat.zero_le i) hij)
  have hlow := hmj.1.resolve_left hj0
  have hup := hmi.2
  have hj1 : j - 1 < ms.length := lt_of_le_of_lt (Nat.sub_le j 1) hj
  rw [getValueNum_toQ, hfac _ (getD_mem ms (j - 1) hj1)] at hlow
  have h1 : (⟨1, 0⟩ : JNum).toQ = 1 := by norm_num [JNum.toQ]
  rw [h1] at hlow
  rw [getValueNum_toQ] at hup
  have hvv : (ms.getD i default).value.toQ ≤ (ms.getD (j - 1) default).value.toQ := by
    rcases Nat.lt_or_ge i (j - 1) with hlt | hge
    · exact le_of_lt (chain_lt_getD ms hch i (j - 1) hlt hj1)
    · have hieq : i = j - 1 := le_antisymm (Nat.le_pred_of_lt hij) hge
      rw [hieq]
  push_cast at hlow hup
  linarith

/-- Disjointness of the min tiers of a strictly sorted px list. -/
theorem minDisjointAux (ns : List BP) (hfac : ∀ bp ∈ ns, bp.factor = (⟨1, 0⟩ : JNum))
    (hch : List.Chain' (fun a b : BP => a.value.toQ < b.value.toQ) ns) :
    ∀ (i j : ℕ) (w : ℚ), i < j → j < ns.length →
      minTierMem ns i w → minTierMem ns j w → False := by
  intro i j w hij hj hmi hmj
  have hi1 : i + 1 < ns.length := lt_of_le_of_lt hij hj
  have hne : i + 1 ≠ ns.length := by omega
  have hup := hmi.2.resolve_left hne
  have hlow := hmj.1
  rw [getValueNum_toQ, hfac _ (getD_mem ns (i + 1) hi1)] at hup
  have h1 : (⟨1, 0⟩ : JNum).toQ = 1 := by norm_num [JNum.toQ]
  rw [h1] at hup
  rw [getValueNum_toQ] at hlow
  have hvv : (ns.getD (i + 1) default).value.toQ ≤ (ns.getD j default).value.toQ := by
    rcases Nat.lt_or_ge (i + 1) j with hlt | hge
    · exact le_of_lt (chain_lt_getD ns hch (i + 1) j hlt hj)
    · have hieq : i + 1 = j := le_antisymm hij hge
      rw [hieq]
  push_cast at hlow hup
  linarith

/-- C1 counterexample: with the valid distinct-point set palm `max 340px`,
desk `min 1000px`, the resolver produces one max tier reading
`width ≤ 340` and one min tier reading `1000 ≤ width`; the width 500
satisfies neither, so the max-tier and min-tier intervals do NOT jointly
cover the full numeric line. -/
theorem c1_counterexample :
    (visit {} [⟨"breakpoint-palm", "max 340px"⟩, ⟨"breakpoint-desk", "min 1000px"⟩]).map
        (fun p => p.1.breakpoints) =
      .ok [{ name := "palm", type := "max", value := ⟨340, 0⟩, unit := "px", factor := ⟨1, 0⟩ },
           { name := "desk", type := "min", value := ⟨1000, 0⟩, unit := "px", factor := ⟨1, 0⟩ }] ∧
    sortByValue (List.filter (fun bp => bp.type == "max")
        [{ name := "palm", type := "max", value := ⟨340, 0⟩, unit := "px", factor := ⟨1, 0⟩ },
         { name := "desk", type := "min", value := ⟨1000, 0⟩, unit := "px", factor := ⟨1, 0⟩ }]) =
      [{ name := "palm", type := "max", value := ⟨340, 0⟩, unit := "px", factor := ⟨1, 0⟩ }] ∧
    sortByValue (List.filter (fun bp => bp.type == "min")
        [{ name := "palm", type := "max", value := ⟨340, 0⟩, unit := "px", factor := ⟨1, 0⟩ },
         { name := "desk", type := "min", value := ⟨1000, 0⟩, unit := "px", factor := ⟨1, 0⟩ }]) =
      [{ name := "desk", type := "min", value := ⟨1000, 0⟩, unit := "px", factor := ⟨1, 0⟩ }] ∧
    ¬ maxTierMem
        [{ name := "palm", type := "max", value := ⟨340, 0⟩, unit := "px", factor := ⟨1, 0⟩ }]
        0 500 ∧
    ¬ minTierMem
        [{ name := "desk", type := "min", value := ⟨1000, 0⟩, unit := "px", factor := ⟨1, 0⟩ }]
        0 500 := by
  refine ⟨rfl, rfl, rfl, ?_, ?_⟩
  · intro hmem
    have hup := hmem.2
    rw [getValueNum_toQ] at hup
    norm_num [JNum.toQ] at hup
  · intro hmem
    have hlow := hmem.1
    rw [getValueNum_toQ] at hlow
    norm_num [JNum.toQ] at hlow

/-- C1 amended: within each family separately the claim holds.  Reading
the resolver's queries as numeric intervals (`maxTierMem`, `minTierMem`):
for a strictly ascending px max list the tiers are pairwise disjoint,
adjacent bounds differ by exactly the tie-break delta (the breakpoint's
`factor`), and every integer width up to the largest max point lies in
some tier; symmetrically, the min tiers are pairwise disjoint, meet at the
delta, and cover every integer width from the smallest min point upward.
The two families together need not cover the whole line (see the
counterexample: a gap remains between the largest max point and the
smallest min point). -/
theorem c1_amended :
    (∀ ms : List BP, (∀ bp ∈ ms, bp.factor = (⟨1, 0⟩ : JNum)) →
      List.Chain' (fun a b : BP => a.value.toQ < b.value.toQ) ms →
      ∀ (i j : ℕ) (w : ℚ), i < j → j < ms.length →
        maxTierMem ms i w → maxTierMem ms j w → False) ∧
    (∀ (ms : List BP) (i : ℕ),
      (getValueNum (ms.getD i default) 1).toQ =
        (getValueNum (ms.getD i default) 0).toQ + (ms.getD i default).factor.toQ) ∧
    (∀ ms : List BP, (∀ bp ∈ ms, bp.factor = (⟨1, 0⟩ : JNum)) →
      (∀ bp ∈ ms, bp.value.exp = 0) →
      ∀ (w : ℤ) (hne : ms ≠ []), w ≤ (ms.getLast hne).value.num →
      ∃ i, i < ms.length ∧ maxTierMem ms i (w : ℚ)) ∧
    (∀ ns : List BP, (∀ bp ∈ ns, bp.factor = (⟨1, 0⟩ : JNum)) →
      List.Chain' (fun a b : BP => a.value.toQ < b.value.toQ) ns →
      ∀ (i j : ℕ) (w : ℚ), i < j → j < ns.length →
        minTierMem ns i w → minTierMem ns j w → False) ∧
    (∀ (ns : List BP) (j : ℕ),
      (getValueNum (ns.getD (j + 1) default) (-1)).toQ =
        (getValueNum (ns.getD (j + 1) default) 0).toQ - (ns.getD (j + 1) default).factor.toQ) ∧
    (∀ ns : List BP, (∀ bp ∈ ns, bp.factor = (⟨1, 0⟩ : JNum)) →
      (∀ bp ∈ ns, bp.value.exp = 0) →
      ∀ (w : ℤ) (hne : ns ≠ []), (ns.head hne).value.num ≤ w →
      ∃ j, j < ns.length ∧ minTierMem ns j (w : ℚ)) := by
  refine ⟨maxDisjointAux, ?_, maxCoverAux, minDisjointAux, ?_, minCoverAux⟩
  · intro ms i
    rw [getValueNum_toQ, getValueNum_toQ]
    push_cast
    ring
  · intro ns j
    rw [getValueNum_toQ, getValueNum_toQ]
    push_cast
    ring

/-- Witness for `c1_amended` at the sorted px max list 340, 700 and the
integer width 500: the coverage component puts 500 in some tier. -/
theorem c1_amended_witness :
    ((∀ bp ∈ ([{ name := "palm", type := "max", value := ⟨340, 0⟩, unit := "px",
                 factor := ⟨1, 0⟩ },
               { name := "tab", type := "max", value := ⟨700, 0⟩, unit := "px",
                 factor := ⟨1, 0⟩ }] : List BP), bp.factor = (⟨1, 0⟩ : JNum)) ∧
      (500 : ℤ) ≤ 700) ∧
    ∃ i, i < ([{ name := "palm", type := "max", value := ⟨340, 0⟩, unit := "px",
                 factor := ⟨1, 0⟩ },
               { name := "tab", type := "max", value := ⟨700, 0⟩, unit := "px",
                 factor := ⟨1, 0⟩ }] : List BP).length ∧
      maxTierMem
        [{ name := "palm", type := "max", value := ⟨340, 0⟩, unit := "px", factor := ⟨1, 0⟩ },
         { name := "tab", type := "max", value := ⟨700, 0⟩, unit := "px", factor := ⟨1, 0⟩ }]
        i ((500 : ℤ) : ℚ) :=
  ⟨⟨by decide, by decide⟩,
    c1_amended.2.2.1
      [{ name := "palm", type := "max", value := ⟨340, 0⟩, unit := "px", factor := ⟨1, 0⟩ },
       { name := "tab", type := "max", value := ⟨700, 0⟩, unit := "px", factor := ⟨1, 0⟩ }]
      (by decide) (by decide) 500 (by decide) (by decide)⟩

end RB
